import Mathlib

/-!
Verification of the portfolio-builder trade ledger against its specification.

This file gives a shallow embedding of the validation and ledger logic of
`portfolio_builder/portfolio/{forms.py, models.py, views.py}` and proves or
refutes the frozen claims about it.

Modelling conventions:
* Calendar dates are Python proleptic-Gregorian ordinals (`dt.date.toordinal`),
  i.e. integers, with ordinal 1 = 0001-01-01, which is a Monday.  `timedelta`
  arithmetic on dates is integer arithmetic on ordinals.
* `DecimalField` values (prices) are exact rationals (`ℚ`), as Python's
  `decimal.Decimal` is exact; `PositiveIntegerField` quantities are `ℕ`.
* The relational store is a record of lists; a query-set is a filtered list in
  row order, and `first()` is `List.head?`.
* Fallible validators return `Option VError`: `none` means the cleaning method
  returned normally, `some e` that it raised `ValidationError` with payload `e`.
-/

namespace PortfolioBuilder

/-- A calendar date as its Python proleptic-Gregorian ordinal. -/
abbrev Date := ℤ

/-- `dt.date.isoweekday`: Monday = 1, ..., Saturday = 6, Sunday = 7.
Ordinal 1 (0001-01-01) is a Monday. -/
def isoweekday (d : Date) : ℤ := (d - 1) % 7 + 1

/-- Embeds `forms.get_default_date` at a given date (the Python default
argument `None`/`dt.date.today()` is passed explicitly by the caller):
Saturday rolls back one day, Sunday two days, otherwise unchanged. -/
def get_default_date (date_ : Date) : Date :=
  if isoweekday date_ = 6 then date_ - 1
  else if isoweekday date_ = 7 then date_ - 2
  else date_

/-- The validation errors raised by the form-cleaning methods in `forms.py`,
with the data carried in the corresponding error messages. -/
inductive VError
  | weekendTrade
  | futureTrade
  | sellWithoutHoldings
  | insufficientHoldings (requested available : ℚ)
  | backdatedTrade (last_date : Date)
deriving DecidableEq, Repr

/-- Embeds `forms.validate_date`.  `today` is the value of `dt.date.today()`
at validation time.  The Python `TypeError` branch (`MalformedDate`) guards
against non-date inputs and cannot arise in this typed model. -/
def validate_date (date : Date) (today : Date) : Option VError :=
  if isoweekday date = 6 ∨ isoweekday date = 7 then some .weekendTrade
  else if date > get_default_date today then some .futureTrade
  else none

/-- Trade side, `Position.SIDES` in `models.py` (`'B'`/`'S'`,
`'buy'`/`'sell'` at the form layer). -/
inductive Side
  | buy
  | sell
deriving DecidableEq, Repr

/-- A row of `models.Portfolio`: `{id, name, user_id}`. -/
structure Portfolio where
  id : ℕ
  name : String
  user_id : ℕ
deriving DecidableEq, Repr

/-- A row of `models.Position` (one ledger entry).  `created_at` plays no role
in any claim and is omitted. -/
structure Position where
  id : ℕ
  ticker : String
  quantity : ℕ
  price : ℚ
  side : Side
  trade_date : Date
  is_last_trade : Bool
  comments : String
  portfolio_id : ℕ
deriving DecidableEq, Repr

/-- The relational store: the `Security` catalog (only tickers matter to the
claims), the `Portfolio` table and the `Position` ledger, each in row order. -/
structure Store where
  securities : List String
  portfolios : List Portfolio
  positions : List Position
deriving DecidableEq, Repr

/-- Resolves a `portfolio_id` foreign key to the portfolio's name, as the
`portfolio_id__name` join used by the form filters. -/
def portfolio_name (s : Store) (pid : ℕ) : Option String :=
  (s.portfolios.find? (fun pf => pf.id == pid)).map (fun pf => pf.name)

/-- Resolves a `portfolio_id` foreign key to the owning user id, as the
`portfolio_id__user_id` join used by the view filters. -/
def portfolio_user (s : Store) (pid : ℕ) : Option ℕ :=
  (s.portfolios.find? (fun pf => pf.id == pid)).map (fun pf => pf.user_id)

/-- The filter `Q(portfolio_id__name=input_portfolio) & Q(ticker=input_ticker)`
of `UpdatePositionForm.clean_side` and `clean_trade_date`. -/
def matches_pair (s : Store) (portfolio ticker : String) (p : Position) : Bool :=
  portfolio_name s p.portfolio_id == some portfolio && p.ticker == ticker

/-- All ledger entries for a (portfolio-name, ticker) pair, in row order. -/
def pair_positions (s : Store) (portfolio ticker : String) : List Position :=
  s.positions.filter (matches_pair s portfolio ticker)

/-- The signed flow of one ledger entry, the `Case/When` expression of
`UpdatePositionForm.clean_side`: `quantity * price` for a buy,
`quantity * price * (-1)` for a sell. -/
def signed_flow (p : Position) : ℚ :=
  match p.side with
  | .buy => (p.quantity : ℚ) * p.price
  | .sell => -((p.quantity : ℚ) * p.price)

/-- The exact-rational signed sum over the matching rows: the net value `V`
of the spec (what the oversell aggregate would yield with exact decimal
arithmetic).  The aggregate as the source actually computes it — through
`Sum(Case(...), output_field=FloatField())`, i.e. in binary64 floating
point — is `float_net_asset_value` below; the two coincide exactly when the
binary64 accumulation is exact. -/
def net_asset_value (s : Store) (portfolio ticker : String) : ℚ :=
  ((pair_positions s portfolio ticker).map signed_flow).sum

/-- `total_amount_sold = input_qty * input_price` of
`UpdatePositionForm.clean_side` (exact: `int * Decimal` in Python). -/
def total_amount_sold (quantity : ℕ) (price : ℚ) : ℚ :=
  (quantity : ℚ) * price

/-- `2 ^ e` in `ℚ` for an integer exponent. -/
def pow2 (e : ℤ) : ℚ :=
  if 0 ≤ e then ((2 ^ e.natAbs : ℕ) : ℚ) else 1 / ((2 ^ e.natAbs : ℕ) : ℚ)

/-- Fuel-driven search for `⌊log₂ a⌋`, halving while `a ≥ 2`. -/
def exp_up : ℕ → ℚ → ℤ → ℤ
  | 0, _, e => e
  | fuel + 1, a, e => if a < 2 then e else exp_up fuel (a / 2) (e + 1)

/-- Fuel-driven search for `⌊log₂ a⌋`, doubling while `a < 1`. -/
def exp_down : ℕ → ℚ → ℤ → ℤ
  | 0, _, e => e
  | fuel + 1, a, e => if 1 ≤ a then e else exp_down fuel (a * 2) (e - 1)

/-- `⌊log₂ a⌋` for positive `a`; the fuel of 100 covers magnitudes up to
`2^±100`, far beyond any value this ledger can produce. -/
def exp2floor (a : ℚ) : ℤ :=
  if 1 ≤ a then exp_up 100 a 0 else exp_down 100 a 0

/-- Round a rational to the nearest integer, ties to even. -/
def round_half_even (m : ℚ) : ℤ :=
  if m - ⌊m⌋ < 1/2 then ⌊m⌋
  else if 1/2 < m - ⌊m⌋ then ⌊m⌋ + 1
  else if ⌊m⌋ % 2 = 0 then ⌊m⌋ else ⌊m⌋ + 1

/-- Round a nonnegative rational to the nearest IEEE-754 binary64 value:
scale into the 53-bit significand range and round to nearest, ties to even. -/
def roundPosB64 (a : ℚ) : ℚ :=
  if a = 0 then 0
  else (round_half_even (a / pow2 (exp2floor a - 52)) : ℚ)
         * pow2 (exp2floor a - 52)

/-- Round a rational to the nearest IEEE-754 binary64 double (round to
nearest, ties to even; 53-bit significand, unbounded exponent — faithful to
binary64 away from the overflow and subnormal ranges, which the bounded
quantities and prices of this ledger never approach). -/
def roundB64 (q : ℚ) : ℚ :=
  if q < 0 then -(roundPosB64 (-q)) else roundPosB64 q

/-- A SQL `SUM` over a double-precision column: left-to-right binary64
additions. -/
def float_sum (l : List ℚ) : ℚ :=
  l.foldl (fun acc x => roundB64 (acc + x)) 0

/-- One entry's signed flow as the database computes it under
`output_field=FloatField()`: the decimal price is taken as a binary64 double
and the signed product `quantity * price` is a binary64 multiplication. -/
def signed_flow_f (p : Position) : ℚ :=
  match p.side with
  | .buy => roundB64 ((p.quantity : ℚ) * roundB64 p.price)
  | .sell => roundB64 (-((p.quantity : ℚ) * roundB64 p.price))

/-- The `Sum(Case(...), output_field=FloatField())` aggregate of
`UpdatePositionForm.clean_side` as actually computed (read back via
`next(iter(net_asset_values), 0.0)`: the sum over the matching rows, `0`
when there are none): a binary64 float sum, which `clean_side` then compares
against the exact `int * Decimal` notional (a Python `Decimal`/`float`
comparison is exact given the operands). -/
def float_net_asset_value (s : Store) (portfolio ticker : String) : ℚ :=
  float_sum ((pair_positions s portfolio ticker).map signed_flow_f)

/-- Embeds `UpdatePositionForm.clean_side`: a sell whose exact `int * Decimal`
notional exceeds the binary64-accumulated net asset value of the
(portfolio, ticker) pair (`float_net_asset_value`, the
`output_field=FloatField()` aggregate) raises `ValidationError` reporting
the requested notional and that float net value. -/
def upd_clean_side (s : Store) (portfolio ticker : String) (side : Side)
    (quantity : ℕ) (price : ℚ) : Option VError :=
  if side = .sell then
    if total_amount_sold quantity price >
        float_net_asset_value s portfolio ticker then
      some (.insufficientHoldings (total_amount_sold quantity price)
              (float_net_asset_value s portfolio ticker))
    else none
  else none

/-- The `get_first_item` lookup of `UpdatePositionForm.clean_trade_date`:
the first row matching the pair with `is_last_trade=True`. -/
def current_entry (s : Store) (portfolio ticker : String) : Option Position :=
  (s.positions.filter
      (fun p => matches_pair s portfolio ticker p && p.is_last_trade)).head?

/-- Embeds `UpdatePositionForm.clean_trade_date`: when a current entry exists
for the pair, a new trade date strictly before its trade date raises
`ValidationError` reporting that last trade date. -/
def upd_clean_trade_date (s : Store) (portfolio ticker : String)
    (input_trade_date : Date) : Option VError :=
  match current_entry s portfolio ticker with
  | some position_obj =>
      if input_trade_date < position_obj.trade_date then
        some (.backdatedTrade position_obj.trade_date)
      else none
  | none => none

/-- Embeds `AddPositionForm.clean_side`: the add-position form rejects any
sell ("You can't sell if your portfolio is empty."). -/
def add_clean_side (side : Side) : Option VError :=
  if side = .sell then some .sellWithoutHoldings else none

/-- The fields of `PositionForm` as submitted (after Django's type coercion).
`portfolio` is the hidden portfolio-name field. -/
structure TradeForm where
  portfolio : String
  ticker : String
  quantity : ℕ
  price : ℚ
  side : Side
  trade_date : Date
  comments : String
deriving DecidableEq, Repr

/-- A store whose `is_last_trade` flags have been rewritten arbitrarily by
`f`; used to state that the oversell aggregation never reads the flag. -/
def set_flags (f : Position → Bool) (s : Store) : Store :=
  { s with positions := s.positions.map (fun p => { p with is_last_trade := f p }) }

/-- Concrete store for exercising the oversell check: one portfolio "P" of
user 1 holding a single buy of 10 @ 100 of ticker "T" (net value 1000). -/
def c1_store : Store :=
  { securities := ["T"]
  , portfolios := [⟨1, "P", 1⟩]
  , positions := [⟨1, "T", 10, 100, .buy, 8, true, "", 1⟩] }

/-- The worked example of the spec (§8): portfolio "Retirement" holds a
historical (non-current) buy of 10 @ 100 and a current sell of 5 @ 100 of
ticker "ABC", so the cumulative net value is 1000 - 500 = 500. -/
def c2_store : Store :=
  { securities := ["ABC"]
  , portfolios := [⟨1, "Retirement", 1⟩]
  , positions :=
      [ ⟨1, "ABC", 10, 100, .buy, 8, false, "", 1⟩
      , ⟨2, "ABC", 5, 100, .sell, 9, true, "", 1⟩ ] }

/-- Concrete store for the monotonic-date check: the pair ("P", "T") has a
current entry with trade date 9. -/
def c5_store : Store :=
  { securities := ["T"]
  , portfolios := [⟨1, "P", 1⟩]
  , positions := [⟨1, "T", 10, 100, .buy, 9, true, "", 1⟩] }

/-- Concrete store whose ledger for the pair ("P", "T") is empty. -/
def c6_store : Store :=
  { securities := ["T"]
  , portfolios := [⟨1, "P", 1⟩]
  , positions := [] }

/-- Well-formedness maintained by the relational store and the app's own
writes: primary keys are unique and — since every handler writes
`user_id=1` and `AddPortfolioForm.clean_name` admits one portfolio per name
for that user — every portfolio belongs to user 1 and names are distinct. -/
def store_wf (s : Store) : Prop :=
  (s.positions.map (fun p => p.id)).Nodup ∧
  (s.portfolios.map (fun pf => pf.id)).Nodup ∧
  (s.portfolios.map (fun pf => pf.name)).Nodup ∧
  ∀ pf ∈ s.portfolios, pf.user_id = 1

instance (s : Store) : Decidable (store_wf s) := by
  unfold store_wf; infer_instance

/-- The single-current-entry invariant (spec §3): within each
(`portfolio_id`, `ticker`) pair, any two entries flagged `is_last_trade`
have the same primary key, and an entry flagged `is_last_trade` carries the
chronologically greatest trade date of its pair. -/
def current_invariant (s : Store) : Prop :=
  ∀ p ∈ s.positions, p.is_last_trade = true →
    ∀ q ∈ s.positions, q.portfolio_id = p.portfolio_id → q.ticker = p.ticker →
      (q.is_last_trade = true → q.id = p.id) ∧ q.trade_date ≤ p.trade_date

instance (s : Store) : Decidable (current_invariant s) := by
  unfold current_invariant; infer_instance

/-- `UpdatePositionForm.is_valid()`: the ticker resolves in the `Security`
catalog (`clean_ticker`), quantity and price lie within the declared field
bounds, the trade date passes `validate_date`, and `clean_side` /
`clean_trade_date` raise no `ValidationError`. -/
def upd_form_valid (s : Store) (today : Date) (f : TradeForm) : Bool :=
  s.securities.contains f.ticker &&
  decide (1 ≤ f.quantity) && decide (f.quantity ≤ 100000) &&
  decide ((1 : ℚ) ≤ f.price) && decide (f.price ≤ 1000000) &&
  (validate_date f.trade_date today).isNone &&
  (upd_clean_side s f.portfolio f.ticker f.side f.quantity f.price).isNone &&
  (upd_clean_trade_date s f.portfolio f.ticker f.trade_date).isNone

/-- The `get_first_item` lookup of `views.upd_position`.  The source filter is
`Q(portfolio_id__user_id=1) & Q(name=portf_name) & Q(ticker=ticker) &
Q(is_last_trade=True)`; `Q(name=...)` is read as the portfolio-name join
(`portfolio_id__name`, as spelled in `forms.py`), `Position` having no `name`
field. -/
def upd_lookup (s : Store) (portf_name ticker : String) : Option Position :=
  (s.positions.filter (fun p =>
      portfolio_user s p.portfolio_id == some 1 &&
      portfolio_name s p.portfolio_id == some portf_name &&
      p.ticker == ticker && p.is_last_trade)).head?

/-- The `Position(...)` constructor call of `views.upd_position`: a row built
from the form's fields — including the form's own ticker — with
`is_last_trade = true` (the model default) and the old current entry's
`portfolio_id`; `fresh_id` is the autoincremented primary key. -/
def new_position (f : TradeForm) (fresh_id pid : ℕ) : Position :=
  { id := fresh_id
  , ticker := f.ticker
  , quantity := f.quantity
  , price := f.price
  , side := f.side
  , trade_date := f.trade_date
  , is_last_trade := true
  , comments := f.comments
  , portfolio_id := pid }

/-- Embeds `views.upd_position` on a submitted form: if the form validates and
a current entry for the URL's (portfolio, ticker) exists, that entry's
`is_last_trade` flag is flipped to false (its other fields untouched) and the
new row is inserted.  Otherwise the store is unchanged. -/
def upd_position (s : Store) (today : Date) (portf_name ticker : String)
    (f : TradeForm) (fresh_id : ℕ) : Store :=
  if upd_form_valid s today f then
    match upd_lookup s portf_name ticker with
    | none => s
    | some last_item =>
        { s with positions :=
            (s.positions.map (fun p =>
              if p.id = last_item.id then { p with is_last_trade := false }
              else p))
            ++ [new_position f fresh_id last_item.portfolio_id] }
  else s

/-- Store for the C3 counterexample: portfolio "P" of user 1 holds current
entries for tickers "T1" and "T2". -/
def c3_store : Store :=
  { securities := ["T1", "T2"]
  , portfolios := [⟨1, "P", 1⟩]
  , positions :=
      [ ⟨1, "T1", 1, 2, .buy, 8, true, "", 1⟩
      , ⟨2, "T2", 1, 2, .buy, 8, true, "", 1⟩ ] }

/-- An update submitted against the URL pair ("P", "T1") whose hidden form
fields name ticker "T2": every form check passes (buy side; Monday date 8 not
before the current date of ("P", "T2")). -/
def c3_form : TradeForm :=
  { portfolio := "P", ticker := "T2", quantity := 1, price := 2
  , side := .buy, trade_date := 8, comments := "" }

/-- Store for the C3 witness: portfolio "P" of user 1 with a single current
buy of ticker "T" dated 8. -/
def c3w_store : Store :=
  { securities := ["T"]
  , portfolios := [⟨1, "P", 1⟩]
  , positions := [⟨1, "T", 10, 100, .buy, 8, true, "", 1⟩] }

/-- A matched update of pair ("P", "T"): form fields equal the URL fields. -/
def c3w_form : TradeForm :=
  { portfolio := "P", ticker := "T", quantity := 5, price := 100
  , side := .buy, trade_date := 9, comments := "" }

/-- The row filter of `views.del_position`:
`Q(portfolio_id__user_id=1) & Q(portfolio_id__name=portf_name) &
Q(ticker=ticker)`. -/
def del_match (s : Store) (portf_name ticker : String) (p : Position) : Bool :=
  portfolio_user s p.portfolio_id == some 1 &&
  portfolio_name s p.portfolio_id == some portf_name &&
  p.ticker == ticker

/-- The primary keys collected by `views.del_position` before deleting. -/
def del_position_ids (s : Store) (portf_name ticker : String) : List ℕ :=
  (s.positions.filter (del_match s portf_name ticker)).map (fun p => p.id)

/-- Embeds `views.del_position` with its two defects read as the intended
behaviour, as the spec does (§9): the 1-tuple passed as `filters` is read as
the `Q` expression it wraps, and `filter(id__in_=ids)` as the `id__in`
membership lookup.  Returns the updated store and whether the deletion branch
ran (`false` = the "An error occurred..." flash for an empty id list). -/
def del_position (s : Store) (portf_name ticker : String) : Store × Bool :=
  let ids := del_position_ids s portf_name ticker
  if ids.isEmpty then (s, false)
  else ({ s with positions :=
            s.positions.filter (fun p => !(ids.contains p.id)) }, true)

/-- Store for the C8 witness: one entry of ticker "T" in portfolio "P". -/
def c8_store : Store :=
  { securities := ["T"]
  , portfolios := [⟨1, "P", 1⟩]
  , positions := [⟨1, "T", 10, 100, .buy, 8, true, "", 1⟩] }

/-- The schema constraint `ticker = models.CharField(max_length=20,
unique=True)` declared on `models.Position`: no two ledger rows share a
ticker, across all portfolios. -/
def ticker_unique (s : Store) : Prop :=
  (s.positions.map (fun p => p.ticker)).Nodup

instance (s : Store) : Decidable (ticker_unique s) := by
  unfold ticker_unique; infer_instance

/-- Store for the C9 witness: two entries with distinct tickers. -/
def c9_store : Store :=
  { securities := ["A", "B"]
  , portfolios := [⟨1, "P", 1⟩]
  , positions :=
      [ ⟨1, "A", 1, 2, .buy, 8, true, "", 1⟩
      , ⟨2, "B", 1, 3, .buy, 8, true, "", 1⟩ ] }

/-- `AddPortfolioForm` validity: the name is 3..25 characters
(`CharField(min_length=3, max_length=25)`) and `clean_name` finds no existing
portfolio of the hard-coded user 1 with that name. -/
def add_portfolio_form_valid (s : Store) (name : String) : Bool :=
  decide (3 ≤ name.length) && decide (name.length ≤ 25) &&
  ((s.portfolios.filter
      (fun pf => pf.user_id == 1 && pf.name == name)).head?).isNone

/-- Embeds `views.add_portfolio` with the requesting authenticated user made
explicit; the handler never reads it — the new row is written with
`user_id=1`. -/
def add_portfolio (request_user : ℕ) (s : Store) (name : String)
    (fresh_id : ℕ) : Store :=
  if add_portfolio_form_valid s name then
    { s with portfolios := s.portfolios ++ [⟨fresh_id, name, 1⟩] }
  else s

/-- The portfolio names listed by `views.index` / `views.del_portfolio`:
`get_items(filters=Q(user_id=1))`, the hard-coded user 1. -/
def user1_portf_names (s : Store) : List String :=
  (s.portfolios.filter (fun pf => pf.user_id == 1)).map (fun pf => pf.name)

/-- Embeds `views.del_portfolio` with the requesting user explicit (unread):
the select-form's choices are user 1's portfolio names, but the portfolio to
delete is then resolved by `Q(name=portf_name)` alone — no user filter — and
deleting it cascades to its positions (`on_delete=CASCADE`). -/
def del_portfolio (request_user : ℕ) (s : Store) (portf_name : String) : Store :=
  if (user1_portf_names s).contains portf_name then
    match (s.portfolios.filter (fun pf => pf.name == portf_name)).head? with
    | none => s
    | some portfolio =>
        { s with
          portfolios := s.portfolios.filter (fun pf => !(pf.id == portfolio.id))
        , positions :=
            s.positions.filter (fun p => !(p.portfolio_id == portfolio.id)) }
  else s

/-- The data handed to the template by `views.index`. -/
structure IndexPage where
  portf_names : List String
  curr_portf_name : String
  positions : List Position
  securities : List String
deriving DecidableEq, Repr

/-- The current portfolio name shown by `views.index`: the submitted
select-form value when it validates (i.e. is among the choices, user 1's
portfolio names), else the first listed name (or "" when there is none). -/
def index_curr_name (s : Store) (sel_name : Option String) : String :=
  match sel_name with
  | some n =>
      if (user1_portf_names s).contains n then n
      else (user1_portf_names s).headD ""
  | none => (user1_portf_names s).headD ""

/-- Embeds `views.index` with the requesting user explicit (unread): both
reads filter on the fixed user id 1; `sel_name` is the submitted select-form
value, honoured only when it is among user 1's portfolio names, else the
first listed name (or "") is shown. -/
def index (request_user : ℕ) (s : Store) (sel_name : Option String) : IndexPage :=
  { portf_names := user1_portf_names s
  , curr_portf_name := index_curr_name s sel_name
  , positions := s.positions.filter (fun p =>
      portfolio_user s p.portfolio_id == some 1 &&
      portfolio_name s p.portfolio_id == some (index_curr_name s sel_name) &&
      p.is_last_trade)
  , securities := s.securities }

/-- `AddPositionForm.is_valid()`: as `UpdatePositionForm` but with the add
variants of `clean_side` (reject all sells) and `clean_trade_date` (no
check beyond `validate_date`). -/
def add_form_valid (s : Store) (today : Date) (f : TradeForm) : Bool :=
  s.securities.contains f.ticker &&
  decide (1 ≤ f.quantity) && decide (f.quantity ≤ 100000) &&
  decide ((1 : ℚ) ≤ f.price) && decide (f.price ≤ 1000000) &&
  (validate_date f.trade_date today).isNone &&
  (add_clean_side f.side).isNone

/-- Embeds `views.add_position` with the requesting user explicit (unread):
the target portfolio is resolved by `Q(name=portf_name)` alone (no user
filter); on success the form's row is inserted (`is_last_trade = true`
default). -/
def add_position (request_user : ℕ) (s : Store) (today : Date)
    (portf_name : String) (f : TradeForm) (fresh_id : ℕ) : Store :=
  if add_form_valid s today f then
    match (s.portfolios.filter (fun pf => pf.name == portf_name)).head? with
    | none => s
    | some portfolio =>
        { s with positions :=
            s.positions ++ [new_position f fresh_id portfolio.id] }
  else s

/-- `views.upd_position` with the requesting user explicit (unread). -/
def upd_position_handler (request_user : ℕ) (s : Store) (today : Date)
    (portf_name ticker : String) (f : TradeForm) (fresh_id : ℕ) : Store :=
  upd_position s today portf_name ticker f fresh_id

/-- `views.del_position` with the requesting user explicit (unread). -/
def del_position_handler (request_user : ℕ) (s : Store)
    (portf_name ticker : String) : Store × Bool :=
  del_position s portf_name ticker

/-- Store for the C10 counterexample: user 2's portfolio "X" (id 5) precedes
user 1's portfolio "X" (id 6) in row order. -/
def c10_store : Store :=
  { securities := []
  , portfolios := [⟨5, "X", 2⟩, ⟨6, "X", 1⟩]
  , positions := [] }

/-- Store exercising the binary64 boundary of the oversell aggregate (used
by the C1 and C7 counterexamples): six buys of 1 share of "T" at the decimal
price 1.1 in portfolio "P"; the exact net value is 6.6, but the binary64
accumulation falls strictly below it. -/
def c7_store : Store :=
  { securities := ["T"]
  , portfolios := [⟨1, "P", 1⟩]
  , positions :=
      [ ⟨1, "T", 1, 11/10, .buy, 8, true, "", 1⟩
      , ⟨2, "T", 1, 11/10, .buy, 8, true, "", 1⟩
      , ⟨3, "T", 1, 11/10, .buy, 8, true, "", 1⟩
      , ⟨4, "T", 1, 11/10, .buy, 8, true, "", 1⟩
      , ⟨5, "T", 1, 11/10, .buy, 8, true, "", 1⟩
      , ⟨6, "T", 1, 11/10, .buy, 8, true, "", 1⟩ ] }

/-- Store for the C7 witness: one buy of 2 @ 3, whose flow and sum are exactly
representable in binary64. -/
def c7w_store : Store :=
  { securities := ["T"]
  , portfolios := [⟨1, "P", 1⟩]
  , positions := [⟨1, "T", 2, 3, .buy, 8, true, "", 1⟩] }

/-- C4: validation fails with `WeekendTrade` whenever `isoweekday` of the trade
date is 6 or 7 (even if the date is also in the future: the weekend check runs
first), fails with `FutureTrade` for non-weekend dates strictly greater than
the weekend-adjusted today, and the adjusted today is the preceding Friday
(one day back from Saturday, two from Sunday, landing on `isoweekday = 5`)
when today is a weekend day and today itself otherwise. -/
theorem validate_date_weekend_future (d today : Date) :
    ((isoweekday d = 6 ∨ isoweekday d = 7) →
       validate_date d today = some .weekendTrade) ∧
    (¬(isoweekday d = 6 ∨ isoweekday d = 7) → d > get_default_date today →
       validate_date d today = some .futureTrade) ∧
    (isoweekday today = 6 →
       get_default_date today = today - 1 ∧
       isoweekday (get_default_date today) = 5) ∧
    (isoweekday today = 7 →
       get_default_date today = today - 2 ∧
       isoweekday (get_default_date today) = 5) ∧
    (¬(isoweekday today = 6 ∨ isoweekday today = 7) →
       get_default_date today = today) := by
  refine ⟨?_, ?_, ?_, ?_, ?_⟩
  · intro h
    unfold validate_date
    rw [if_pos h]
  · intro h1 h2
    unfold validate_date
    rw [if_neg h1, if_pos h2]
  · intro h
    unfold get_default_date
    rw [if_pos h]
    refine ⟨rfl, ?_⟩
    unfold isoweekday at h ⊢
    omega
  · intro h
    have h6 : ¬ isoweekday today = 6 := by
      unfold isoweekday at h ⊢; omega
    unfold get_default_date
    rw [if_neg h6, if_pos h]
    refine ⟨rfl, ?_⟩
    unfold isoweekday at h ⊢
    omega
  · intro h
    push_neg at h
    unfold get_default_date
    rw [if_neg h.1, if_neg h.2]

/-- Witness for C4 at concrete dates: ordinal 6 is a Saturday, 7 a Sunday,
8 a Monday; with today = Sunday 7, the adjusted today is Friday 5, so the
Monday date 8 is a future trade, while the Saturday date 6 is rejected as a
weekend trade. -/
theorem validate_date_weekend_future_witness :
    validate_date 6 7 = some .weekendTrade ∧
    validate_date 8 7 = some .futureTrade ∧
    get_default_date 7 = 5 ∧
    isoweekday (get_default_date 7) = 5 := by
  refine ⟨?_, ?_, ?_, ?_⟩
  · exact (validate_date_weekend_future 6 7).1 (by decide)
  · exact (validate_date_weekend_future 8 7).2.1 (by decide) (by decide)
  · exact ((validate_date_weekend_future 8 7).2.2.2.1 (by decide)).1
  · exact ((validate_date_weekend_future 8 7).2.2.2.1 (by decide)).2

/-- Helper: the oversell aggregation over a list of entries whose
`is_last_trade` flags have been rewritten, against a store with the same
portfolio table, equals the aggregation over the original entries: neither
the pair filter nor the signed flow reads the flag. -/
theorem filter_flow_set_flags (s s' : Store) (hpf : s'.portfolios = s.portfolios)
    (portfolio ticker : String) (f : Position → Bool) (l : List Position) :
    (((l.map (fun p => { p with is_last_trade := f p })).filter
        (matches_pair s' portfolio ticker)).map signed_flow).sum =
      ((l.filter (matches_pair s portfolio ticker)).map signed_flow).sum := by
  induction l with
  | nil => rfl
  | cons p t ih =>
    have hm : matches_pair s' portfolio ticker { p with is_last_trade := f p } =
        matches_pair s portfolio ticker p := by
      simp [matches_pair, portfolio_name, hpf]
    have hsf : signed_flow { p with is_last_trade := f p } = signed_flow p := rfl
    simp only [List.map_cons, List.filter_cons, hm]
    by_cases h : matches_pair s portfolio ticker p
    · simp only [h, if_pos, List.map_cons, List.sum_cons, hsf, ih]
    · simp only [Bool.not_eq_true] at h
      simp only [h, Bool.false_eq_true, if_false, ih]

/-- C2: the net value used by the oversell check is the signed sum of
`quantity * price` over all ledger entries of the (portfolio, ticker) pair,
independent of their `is_last_trade` flags (historical entries included):
rewriting the flags arbitrarily never changes it, and on the spec's worked
example (historical buy of 1000, current sell of 500) it is 500, while the
current entry alone carries -500. -/
theorem net_asset_value_counts_all_entries :
    (∀ (s : Store) (portfolio ticker : String) (f : Position → Bool),
        net_asset_value (set_flags f s) portfolio ticker =
          net_asset_value s portfolio ticker) ∧
    net_asset_value c2_store "Retirement" "ABC" = 500 ∧
    (current_entry c2_store "Retirement" "ABC").map signed_flow = some (-500) := by
  refine ⟨?_, ?_, ?_⟩
  · intro s portfolio ticker f
    unfold net_asset_value pair_positions set_flags
    exact filter_flow_set_flags _ s rfl portfolio ticker f s.positions
  · have hpp : pair_positions c2_store "Retirement" "ABC" =
        [ ⟨1, "ABC", 10, 100, .buy, 8, false, "", 1⟩
        , ⟨2, "ABC", 5, 100, .sell, 9, true, "", 1⟩ ] := by decide
    unfold net_asset_value
    rw [hpp]
    simp [signed_flow]
    norm_num
  · have hcur : current_entry c2_store "Retirement" "ABC" =
        some ⟨2, "ABC", 5, 100, .sell, 9, true, "", 1⟩ := by decide
    rw [hcur]
    simp [signed_flow]
    norm_num

/-- C5: when the (portfolio, ticker) pair has a current entry with trade date
`T`, the update form's date check fails with `BackdatedTrade{last_date = T}`
exactly when the new trade date is strictly before `T`, and passes when the
new date is on or after `T`. -/
theorem upd_clean_trade_date_monotonic (s : Store) (portfolio ticker : String)
    (d : Date) (pos : Position)
    (hcur : current_entry s portfolio ticker = some pos) :
    (d < pos.trade_date →
       upd_clean_trade_date s portfolio ticker d =
         some (.backdatedTrade pos.trade_date)) ∧
    (pos.trade_date ≤ d →
       upd_clean_trade_date s portfolio ticker d = none) := by
  have hred : upd_clean_trade_date s portfolio ticker d =
      if d < pos.trade_date then some (.backdatedTrade pos.trade_date)
      else none := by
    unfold upd_clean_trade_date
    rw [hcur]
  constructor <;> intro h <;> rw [hred]
  · rw [if_pos h]
  · rw [if_neg (not_lt.mpr h)]

/-- Witness for C5 on `c5_store` (current entry dated 9): updating with date 8
is rejected as backdated reporting last date 9, updating with date 9 passes. -/
theorem upd_clean_trade_date_monotonic_witness :
    upd_clean_trade_date c5_store "P" "T" 8 = some (.backdatedTrade 9) ∧
    upd_clean_trade_date c5_store "P" "T" 9 = none := by
  have hcur : current_entry c5_store "P" "T" =
      some ⟨1, "T", 10, 100, .buy, 9, true, "", 1⟩ := by decide
  exact ⟨(upd_clean_trade_date_monotonic c5_store "P" "T" 8 _ hcur).1 (by decide),
         (upd_clean_trade_date_monotonic c5_store "P" "T" 9 _ hcur).2 (by decide)⟩

/-- C6: when the ledger for the (portfolio, ticker) pair is empty, the
add-position form rejects any sell with `SellWithoutHoldings`, for every
quantity and price (the add form rejects sells unconditionally). -/
theorem add_clean_side_sell_empty_ledger (s : Store) (portfolio ticker : String)
    (quantity : ℕ) (price : ℚ)
    (hempty : pair_positions s portfolio ticker = []) :
    add_clean_side .sell = some .sellWithoutHoldings := rfl

/-- Witness for C6 on `c6_store`, whose ledger for ("P", "T") is empty. -/
theorem add_clean_side_sell_empty_ledger_witness :
    add_clean_side .sell = some .sellWithoutHoldings :=
  add_clean_side_sell_empty_ledger c6_store "P" "T" 5 100 (by decide)

/-- Helper: the first element of a filtered list belongs to the list and
satisfies the filter. -/
theorem filter_head?_mem {α : Type} {l : List α} {pred : α → Bool} {a : α}
    (h : (l.filter pred).head? = some a) : a ∈ l ∧ pred a = true := by
  induction l with
  | nil => simp [List.filter_nil] at h
  | cons x t ih =>
    rw [List.filter_cons] at h
    by_cases hx : pred x = true
    · rw [if_pos hx, List.head?_cons] at h
      injection h with h2
      subst h2
      exact ⟨List.mem_cons_self _ _, hx⟩
    · rw [if_neg hx] at h
      obtain ⟨h1, h2⟩ := ih h
      exact ⟨List.mem_cons_of_mem x h1, h2⟩

/-- C3 counterexample: on `c3_store` (current entries for ("P","T1") and
("P","T2")), the validated update submitted against URL pair ("P","T1") with
hidden form ticker "T2" flips the current entry found for the URL's ticker
but inserts the form's ticker, leaving the pair ("P","T2") with two entries
flagged current: the update operation does not preserve the invariant. -/
theorem upd_position_two_current_entries :
    store_wf c3_store ∧ current_invariant c3_store ∧
    upd_form_valid c3_store 8 c3_form = true ∧
    ¬ current_invariant (upd_position c3_store 8 "P" "T1" c3_form 3) := by
  refine ⟨by decide, by decide, by decide, by decide⟩

/-- C3 (amended): provided the submitted form's hidden portfolio and ticker
fields equal the URL's portfolio and ticker, a validated update preserves the
single-current-entry invariant — the old current entry is flipped to
non-current with its other fields unchanged, the inserted entry is the unique
current entry of the pair and carries its greatest trade date — and every
pre-existing row survives with at most its `is_last_trade` flag changed. -/
theorem upd_position_preserves_current_invariant
    (s : Store) (today : Date) (portf_name ticker : String) (f : TradeForm)
    (fresh_id : ℕ)
    (hwf : store_wf s) (hinv : current_invariant s)
    (hv : upd_form_valid s today f = true)
    (hfp : f.portfolio = portf_name) (hft : f.ticker = ticker) :
    current_invariant (upd_position s today portf_name ticker f fresh_id) ∧
    (∀ last_item, upd_lookup s portf_name ticker = some last_item →
       ∀ p ∈ s.positions,
         (if p.id = last_item.id then { p with is_last_trade := false }
          else p) ∈ (upd_position s today portf_name ticker f fresh_id).positions) := by
  have huser : ∀ p : Position,
      (portfolio_name s p.portfolio_id == some portf_name) = true →
      (portfolio_user s p.portfolio_id == some 1) = true := by
    intro p hp
    unfold portfolio_name at hp
    unfold portfolio_user
    cases hfind : s.portfolios.find? (fun pf => pf.id == p.portfolio_id) with
    | none => rw [hfind] at hp; simp at hp
    | some pf =>
        rw [hfind] at hp
        have hmem : pf ∈ s.portfolios := List.mem_of_find?_eq_some hfind
        simp [hwf.2.2.2 pf hmem]
  have hlookup_eq : upd_lookup s portf_name ticker =
      current_entry s portf_name ticker := by
    unfold upd_lookup current_entry
    congr 1
    apply List.filter_congr
    intro x hx
    by_cases h1 : (portfolio_name s x.portfolio_id == some portf_name) = true
    · simp [matches_pair, h1, huser x h1]
    · simp only [Bool.not_eq_true] at h1
      simp [matches_pair, h1]
  cases hlk : upd_lookup s portf_name ticker with
  | none =>
      have hupd : upd_position s today portf_name ticker f fresh_id = s := by
        unfold upd_position
        rw [if_pos hv, hlk]
      rw [hupd]
      refine ⟨hinv, ?_⟩
      intro last_item hlast_item
      simp at hlast_item
  | some last =>
      -- facts about the looked-up current entry
      have hlk' : (s.positions.filter (fun p =>
          portfolio_user s p.portfolio_id == some 1 &&
          portfolio_name s p.portfolio_id == some portf_name &&
          p.ticker == ticker && p.is_last_trade)).head? = some last := hlk
      obtain ⟨hlmem, hlpred⟩ := filter_head?_mem hlk'
      simp only [Bool.and_eq_true, beq_iff_eq] at hlpred
      obtain ⟨⟨⟨_hluser, _hlpn⟩, hltk⟩, hlfl⟩ := hlpred
      -- the date check of the validated form, transported to the URL pair
      have hctd : upd_clean_trade_date s portf_name ticker f.trade_date = none := by
        have h := hv
        simp only [upd_form_valid, Bool.and_eq_true,
          Option.isNone_iff_eq_none] at h
        have h8 := h.2
        rwa [hfp, hft] at h8
      have hcur : current_entry s portf_name ticker = some last := by
        rw [← hlookup_eq]; exact hlk
      have hred : upd_clean_trade_date s portf_name ticker f.trade_date =
          if f.trade_date < last.trade_date
          then some (.backdatedTrade last.trade_date) else none := by
        unfold upd_clean_trade_date
        rw [hcur]
      have hdate : last.trade_date ≤ f.trade_date := by
        rw [hred] at hctd
        by_cases hd : f.trade_date < last.trade_date
        · rw [if_pos hd] at hctd; cases hctd
        · exact not_lt.mp hd
      have hupd : upd_position s today portf_name ticker f fresh_id =
          { s with positions :=
              (s.positions.map (fun p =>
                if p.id = last.id then { p with is_last_trade := false }
                else p))
              ++ [new_position f fresh_id last.portfolio_id] } := by
        unfold upd_position
        rw [if_pos hv, hlk]
      rw [hupd]
      constructor
      · -- the invariant holds in the updated store
        intro p hp hpfl q hq hqpid hqtk
        simp only [List.mem_append, List.mem_map, List.mem_singleton] at hp hq
        rcases hp with ⟨x, hxmem, hgx⟩ | hpnew
        · -- p is a mapped pre-existing row; current only if untouched
          by_cases hxid : x.id = last.id
          · rw [if_pos hxid] at hgx
            rw [← hgx] at hpfl
            simp at hpfl
          · rw [if_neg hxid] at hgx
            subst hgx
            rcases hq with ⟨y, hymem, hgy⟩ | hqnew
            · by_cases hyid : y.id = last.id
              · rw [if_pos hyid] at hgy
                subst hgy
                have hy := hinv x hxmem hpfl y hymem hqpid hqtk
                refine ⟨fun hqfl => ?_, hy.2⟩
                simp at hqfl
              · rw [if_neg hyid] at hgy
                subst hgy
                exact hinv x hxmem hpfl y hymem hqpid hqtk
            · -- q is the inserted row: then x shares last's pair,
              -- contradicting uniqueness of the current entry in s
              exfalso
              subst hqnew
              have hxpid : last.portfolio_id = x.portfolio_id := hqpid
              have hxtk : last.ticker = x.ticker := by
                have hq' : f.ticker = x.ticker := hqtk
                rw [hltk, ← hft]
                exact hq'
              have hlid := (hinv x hxmem hpfl last hlmem hxpid hxtk).1 hlfl
              exact hxid hlid.symm
        · -- p is the inserted row: unique current of its pair, latest date
          subst hpnew
          rcases hq with ⟨y, hymem, hgy⟩ | hqnew
          · by_cases hyid : y.id = last.id
            · rw [if_pos hyid] at hgy
              subst hgy
              have hypid : y.portfolio_id = last.portfolio_id := hqpid
              have hytk : y.ticker = last.ticker := by
                have hq' : y.ticker = f.ticker := hqtk
                rw [hltk, ← hft]
                exact hq'
              have hy := hinv last hlmem hlfl y hymem hypid hytk
              refine ⟨fun hqfl => ?_, le_trans hy.2 hdate⟩
              simp at hqfl
            · rw [if_neg hyid] at hgy
              subst hgy
              have hypid : y.portfolio_id = last.portfolio_id := hqpid
              have hytk : y.ticker = last.ticker := by
                have hq' : y.ticker = f.ticker := hqtk
                rw [hltk, ← hft]
                exact hq'
              have hy := hinv last hlmem hlfl y hymem hypid hytk
              refine ⟨fun hqfl => absurd (hy.1 hqfl) hyid, le_trans hy.2 hdate⟩
          · subst hqnew
            exact ⟨fun _ => rfl, le_refl _⟩
      · -- every pre-existing row survives, at most its flag flipped
        intro last_item hlast_item p hp
        injection hlast_item with hli
        subst hli
        simp only [List.mem_append, List.mem_map]
        exact Or.inl ⟨p, hp, rfl⟩

/-- Witness for the amended C3 on `c3w_store`: a matched, validated update of
pair ("P", "T") preserves the invariant. -/
theorem upd_position_preserves_current_invariant_witness :
    current_invariant (upd_position c3w_store 9 "P" "T" c3w_form 2) :=
  (upd_position_preserves_current_invariant c3w_store 9 "P" "T" c3w_form 2
    (by decide) (by decide) (by decide) rfl rfl).1

/-- C8 (intended behaviour per spec §9): the delete-position operation removes
exactly the ledger entries matching the named portfolio and ticker (a
surviving row is a pre-existing one that did not match), and when no entry
matches it reports the error branch and leaves the store unchanged. -/
theorem del_position_removes_ticker (s : Store) (portf_name ticker : String)
    (hwf : store_wf s) :
    ((∀ p ∈ s.positions, del_match s portf_name ticker p = false) →
       del_position s portf_name ticker = (s, false)) ∧
    ((∃ p ∈ s.positions, del_match s portf_name ticker p = true) →
       (del_position s portf_name ticker).2 = true ∧
       (∀ p ∈ s.positions,
          (p ∈ (del_position s portf_name ticker).1.positions ↔
            del_match s portf_name ticker p = false)) ∧
       ∀ p ∈ (del_position s portf_name ticker).1.positions, p ∈ s.positions) := by
  have hinj := List.inj_on_of_nodup_map hwf.1
  have hcont : ∀ p ∈ s.positions,
      ((del_position_ids s portf_name ticker).contains p.id = true ↔
        del_match s portf_name ticker p = true) := by
    intro p hp
    unfold del_position_ids
    constructor
    · intro hc
      simp only [List.contains_eq_any_beq, List.any_eq_true, beq_iff_eq] at hc
      obtain ⟨i, hi, hieq⟩ := hc
      simp only [List.mem_map] at hi
      obtain ⟨q, hq, hqi⟩ := hi
      obtain ⟨hqmem, hqmatch⟩ := List.mem_filter.mp hq
      have : q = p := hinj hqmem hp (by rw [hqi, hieq])
      rwa [← this]
    · intro hm
      simp only [List.contains_eq_any_beq, List.any_eq_true, beq_iff_eq]
      exact ⟨p.id, List.mem_map_of_mem _ (List.mem_filter.mpr ⟨hp, hm⟩), rfl⟩
  constructor
  · intro hnone
    have hids : del_position_ids s portf_name ticker = [] := by
      unfold del_position_ids
      rw [List.filter_eq_nil_iff.mpr (fun a ha => by simp [hnone a ha])]
      rfl
    unfold del_position
    rw [hids]
    rfl
  · intro hsome
    obtain ⟨w, hwmem, hwmatch⟩ := hsome
    have hne : (del_position_ids s portf_name ticker).isEmpty = false := by
      unfold del_position_ids
      cases hf : s.positions.filter (del_match s portf_name ticker) with
      | nil =>
          exfalso
          have := List.filter_eq_nil_iff.mp hf w hwmem
          exact this hwmatch
      | cons a t => rfl
    have hres : del_position s portf_name ticker =
        ({ s with positions := s.positions.filter (fun p =>
            !((del_position_ids s portf_name ticker).contains p.id)) }, true) := by
      simp only [del_position, hne, Bool.false_eq_true, if_false]
    rw [hres]
    refine ⟨rfl, ?_, ?_⟩
    · intro p hp
      simp only [List.mem_filter, Bool.not_eq_true']
      constructor
      · intro ⟨_, hnc⟩
        by_contra hmatch
        simp only [Bool.not_eq_false] at hmatch
        rw [(hcont p hp).mpr hmatch] at hnc
        cases hnc
      · intro hnm
        refine ⟨hp, ?_⟩
        by_contra hc
        simp only [Bool.not_eq_false] at hc
        rw [(hcont p hp).mp hc] at hnm
        cases hnm
    · intro p hp
      exact (List.mem_filter.mp hp).1

/-- Witness for C8 on `c8_store`: deleting the absent ticker "U" reports the
error branch and leaves the store unchanged; deleting the present ticker "T"
runs the deletion branch. -/
theorem del_position_removes_ticker_witness :
    del_position c8_store "P" "U" = (c8_store, false) ∧
    (del_position c8_store "P" "T").2 = true := by
  refine ⟨(del_position_removes_ticker c8_store "P" "U" (by decide)).1
    (by decide), ?_⟩
  exact ((del_position_removes_ticker c8_store "P" "T" (by decide)).2
    ⟨⟨1, "T", 10, 100, .buy, 8, true, "", 1⟩, by decide, by decide⟩).1

/-- C9: `Position.ticker` is declared `unique=True`, so in any store
satisfying that schema constraint no two ledger rows share a ticker: rows
with equal tickers are the same row, each (`portfolio_id`, ticker) pair holds
at most one entry, and no two portfolios hold entries of the same ticker. -/
theorem ticker_unique_one_entry_per_pair (s : Store) (h : ticker_unique s) :
    (∀ p ∈ s.positions, ∀ q ∈ s.positions, p.ticker = q.ticker → p = q) ∧
    (∀ pid ticker, (s.positions.filter
        (fun p => p.portfolio_id == pid && p.ticker == ticker)).length ≤ 1) ∧
    (∀ p ∈ s.positions, ∀ q ∈ s.positions, p.ticker = q.ticker →
       p.portfolio_id = q.portfolio_id) := by
  have hinj : ∀ p ∈ s.positions, ∀ q ∈ s.positions, p.ticker = q.ticker → p = q := by
    intro p hp q hq htk
    exact List.inj_on_of_nodup_map h hp hq htk
  refine ⟨hinj, ?_, ?_⟩
  · intro pid ticker
    by_contra hlen
    push_neg at hlen
    obtain ⟨a, b, t, hfil⟩ : ∃ a b t,
        s.positions.filter (fun p => p.portfolio_id == pid && p.ticker == ticker)
          = a :: b :: t := by
      cases hf : s.positions.filter
          (fun p => p.portfolio_id == pid && p.ticker == ticker) with
      | nil => rw [hf] at hlen; simp at hlen
      | cons a t1 =>
          cases t1 with
          | nil => rw [hf] at hlen; simp at hlen
          | cons b t => exact ⟨a, b, t, rfl⟩
    have hnd : (s.positions.filter
        (fun p => p.portfolio_id == pid && p.ticker == ticker)).Nodup :=
      (List.Nodup.of_map _ h).filter _
    rw [hfil] at hnd
    have hane : a ≠ b := by
      intro hab
      exact (List.nodup_cons.mp hnd).1 (hab ▸ List.mem_cons_self b t)
    have hamem := List.mem_filter.mp (hfil ▸ List.mem_cons_self a (b :: t))
    have hbmem := List.mem_filter.mp
      (hfil ▸ List.mem_cons_of_mem a (List.mem_cons_self b t))
    simp only [Bool.and_eq_true, beq_iff_eq] at hamem hbmem
    exact hane (hinj a hamem.1 b hbmem.1 (by rw [hamem.2.2, hbmem.2.2]))
  · intro p hp q hq htk
    rw [hinj p hp q hq htk]

/-- Witness for C9 on `c9_store` (tickers pairwise distinct): the pair
(portfolio 1, ticker "A") holds at most one entry. -/
theorem ticker_unique_one_entry_per_pair_witness :
    ticker_unique c9_store ∧
    (c9_store.positions.filter
        (fun p => p.portfolio_id == 1 && p.ticker == "A")).length ≤ 1 :=
  ⟨by decide, (ticker_unique_one_entry_per_pair c9_store (by decide)).2.1 1 "A"⟩

/-- C10 counterexample: `views.del_portfolio` resolves the portfolio to
delete by `Q(name=portf_name)` with no user filter, so not every read and
mutation targets the fixed user id 1: on `c10_store`, where user 2's
portfolio "X" precedes user 1's portfolio of the same name, the handler
deletes user 2's row and keeps user 1's. -/
theorem del_portfolio_deletes_other_users_row :
    (⟨5, "X", 2⟩ : Portfolio) ∈ c10_store.portfolios ∧
    (⟨5, "X", 2⟩ : Portfolio).user_id ≠ 1 ∧
    (⟨5, "X", 2⟩ : Portfolio) ∉ (del_portfolio 1 c10_store "X").portfolios ∧
    (⟨6, "X", 1⟩ : Portfolio) ∈ (del_portfolio 1 c10_store "X").portfolios := by
  decide

/-- C10 (amended): no handler reads the authenticated requesting user — its
reads and mutations either filter on the fixed user id 1 or carry no user
filter at all — so any two authenticated users submitting identical inputs
over the same store obtain identical pages and identical store mutations
from all six handlers. -/
theorem handlers_ignore_request_user (u1 u2 : ℕ) (s : Store) (today : Date)
    (portf_name ticker name : String) (sel : Option String) (f : TradeForm)
    (fresh_id : ℕ) :
    index u1 s sel = index u2 s sel ∧
    add_portfolio u1 s name fresh_id = add_portfolio u2 s name fresh_id ∧
    del_portfolio u1 s portf_name = del_portfolio u2 s portf_name ∧
    add_position u1 s today portf_name f fresh_id =
      add_position u2 s today portf_name f fresh_id ∧
    upd_position_handler u1 s today portf_name ticker f fresh_id =
      upd_position_handler u2 s today portf_name ticker f fresh_id ∧
    del_position_handler u1 s portf_name ticker =
      del_position_handler u2 s portf_name ticker :=
  ⟨rfl, rfl, rfl, rfl, rfl, rfl⟩

/-- Helper: `roundB64` unfolded at a positive argument. -/
theorem roundB64_nonneg_eval (q : ℚ) (h : ¬ q < 0) (h0 : ¬ q = 0) :
    roundB64 q = (round_half_even (q / pow2 (exp2floor q - 52)) : ℚ)
      * pow2 (exp2floor q - 52) := by
  rw [roundB64, if_neg h, roundPosB64, if_neg h0]

/-- Helper: the pair filter of `c7_store` keeps all six rows. -/
theorem pair_positions_c7 :
    pair_positions c7_store "P" "T" = c7_store.positions := by
  simp +decide [pair_positions, matches_pair, portfolio_name, c7_store]

/-- Helper: the exact net value `V` of `c7_store` is 6.6. -/
theorem nav_c7_eval : net_asset_value c7_store "P" "T" = 33/5 := by
  unfold net_asset_value
  rw [pair_positions_c7]
  norm_num [c7_store, signed_flow]

set_option maxHeartbeats 1600000 in
/-- Helper: the binary64 accumulation of the six flows of `c7_store`,
evaluated rounding step by rounding step: double(1.1) is
2476979795053773/2^51, and the running sums round to the doubles of 1.1,
2.2, 3.3, 4.4, 5.5 and finally double(6.6) = 3715469692580659/2^49,
which lies strictly below the exact 6.6. -/
theorem float_nav_c7_eval :
    float_net_asset_value c7_store "P" "T" = 3715469692580659/2^49 := by
  have rx : roundB64 (11/10) = 2476979795053773/2^51 := by
    have h1 : exp2floor (11/10) = 0 := by norm_num [exp2floor, exp_up]
    rw [roundB64_nonneg_eval _ (by norm_num) (by norm_num), h1]
    norm_num [pow2, round_half_even]
  have ra : roundB64 (2476979795053773/2^51) = 2476979795053773/2^51 := by
    have h1 : exp2floor (2476979795053773/2^51) = 0 := by
      norm_num [exp2floor, exp_up]
    rw [roundB64_nonneg_eval _ (by norm_num) (by norm_num), h1]
    norm_num [pow2, round_half_even]
  have rb : roundB64 (2476979795053773/2^50) = 2476979795053773/2^50 := by
    have h1 : exp2floor (2476979795053773/2^50) = 1 := by
      norm_num [exp2floor, exp_up]
    rw [roundB64_nonneg_eval _ (by norm_num) (by norm_num), h1]
    norm_num [pow2, round_half_even]
  have rc : roundB64 (7430939385161319/2^51) = 7430939385161319/2^51 := by
    have h1 : exp2floor (7430939385161319/2^51) = 1 := by
      norm_num [exp2floor, exp_up]
    rw [roundB64_nonneg_eval _ (by norm_num) (by norm_num), h1]
    norm_num [pow2, round_half_even]
  have rd : roundB64 (2476979795053773/2^49) = 2476979795053773/2^49 := by
    have h1 : exp2floor (2476979795053773/2^49) = 2 := by
      norm_num [exp2floor, exp_up]
    rw [roundB64_nonneg_eval _ (by norm_num) (by norm_num), h1]
    norm_num [pow2, round_half_even]
  have re : roundB64 (12384898975268865/2^51) = 11/2 := by
    have h1 : exp2floor (12384898975268865/2^51) = 2 := by
      norm_num [exp2floor, exp_up]
    rw [roundB64_nonneg_eval _ (by norm_num) (by norm_num), h1]
    norm_num [pow2, round_half_even]
  have rf : roundB64 (14861878770322637/2^51) = 3715469692580659/2^49 := by
    have h1 : exp2floor (14861878770322637/2^51) = 2 := by
      norm_num [exp2floor, exp_up]
    rw [roundB64_nonneg_eval _ (by norm_num) (by norm_num), h1]
    norm_num [pow2, round_half_even]
  unfold float_net_asset_value
  rw [pair_positions_c7]
  simp only [c7_store, List.map, signed_flow_f, Nat.cast_one]
  simp only [rx]
  simp only [(by norm_num :
    (1 : ℚ) * (2476979795053773/2^51) = 2476979795053773/2^51)]
  simp only [ra, float_sum, List.foldl]
  rw [(by norm_num : (0 : ℚ) + 2476979795053773/2^51
        = 2476979795053773/2^51), ra]
  rw [(by norm_num : (2476979795053773/2^51 : ℚ) + 2476979795053773/2^51
        = 2476979795053773/2^50), rb]
  rw [(by norm_num : (2476979795053773/2^50 : ℚ) + 2476979795053773/2^51
        = 7430939385161319/2^51), rc]
  rw [(by norm_num : (7430939385161319/2^51 : ℚ) + 2476979795053773/2^51
        = 2476979795053773/2^49), rd]
  rw [(by norm_num : (2476979795053773/2^49 : ℚ) + 2476979795053773/2^51
        = 12384898975268865/2^51), re]
  rw [(by norm_num : (11/2 : ℚ) + 2476979795053773/2^51
        = 14861878770322637/2^51), rf]

set_option maxHeartbeats 400000 in
/-- C1 counterexample: on `c7_store` the exact net value `V` of the pair is
6.6 and the proposed sell 6 @ 1.1 has notional exactly `V`, yet `clean_side`
rejects it — reporting an `available` equal to the binary64-accumulated net
value, not `V` — because the oversell aggregate is computed through
`output_field=FloatField()`: both "succeeds whenever quantity * price ≤ V"
and "available = V" fail on the code. -/
theorem upd_clean_side_rejects_boundary_sell :
    net_asset_value c7_store "P" "T" = 33/5 ∧
    total_amount_sold 6 (11/10) ≤ net_asset_value c7_store "P" "T" ∧
    upd_clean_side c7_store "P" "T" .sell 6 (11/10) =
      some (.insufficientHoldings (33/5) (3715469692580659/2^49)) ∧
    (3715469692580659 : ℚ)/2^49 ≠ 33/5 := by
  refine ⟨nav_c7_eval, ?_, ?_, by norm_num⟩
  · rw [nav_c7_eval]
    norm_num [total_amount_sold]
  · unfold upd_clean_side
    rw [if_pos rfl, float_nav_c7_eval]
    rw [if_pos (by norm_num [total_amount_sold])]
    norm_num [total_amount_sold]

/-- C1 (amended): for a (portfolio, ticker) pair with existing ledger
entries, let `F = float_net_asset_value` be the binary64-accumulated net
value the oversell aggregate actually computes (it equals the exact net
value `V` whenever the accumulation is exact, and differs at boundary inputs
such as the counterexample's): a proposed sell fails with
`InsufficientHoldings{requested = quantity * price, available = F}` exactly
when `quantity * price > F`, and passes when `quantity * price ≤ F`
(equality admitted). -/
theorem upd_clean_side_oversell_float (s : Store) (portfolio ticker : String)
    (quantity : ℕ) (price : ℚ)
    (hne : pair_positions s portfolio ticker ≠ []) :
    total_amount_sold quantity price = (quantity : ℚ) * price ∧
    (float_net_asset_value s portfolio ticker <
        total_amount_sold quantity price →
       upd_clean_side s portfolio ticker .sell quantity price =
         some (.insufficientHoldings (total_amount_sold quantity price)
                 (float_net_asset_value s portfolio ticker))) ∧
    (total_amount_sold quantity price ≤
        float_net_asset_value s portfolio ticker →
       upd_clean_side s portfolio ticker .sell quantity price = none) := by
  refine ⟨rfl, ?_, ?_⟩
  · intro h
    unfold upd_clean_side
    rw [if_pos rfl, if_pos h]
  · intro h
    unfold upd_clean_side
    rw [if_pos rfl, if_neg (not_lt.mpr h)]

set_option maxHeartbeats 800000 in
/-- Witness for the amended C1 on `c1_store` (one buy of 10 @ 100, whose
binary64 net value is exactly 1000): selling notional 2000 = 20 * 100 is
rejected reporting requested 2000 and available 1000; selling notional
500 = 5 * 100 passes. -/
theorem upd_clean_side_oversell_float_witness :
    upd_clean_side c1_store "P" "T" .sell 20 100 =
      some (.insufficientHoldings 2000 1000) ∧
    upd_clean_side c1_store "P" "T" .sell 5 100 = none := by
  have hpp : pair_positions c1_store "P" "T" = c1_store.positions := by
    simp +decide [pair_positions, matches_pair, portfolio_name, c1_store]
  have r100 : roundB64 (100 : ℚ) = 100 := by
    have h1 : exp2floor 100 = 6 := by norm_num [exp2floor, exp_up]
    rw [roundB64_nonneg_eval _ (by norm_num) (by norm_num), h1]
    norm_num [pow2, round_half_even]
  have r1000 : roundB64 (1000 : ℚ) = 1000 := by
    have h1 : exp2floor 1000 = 9 := by norm_num [exp2floor, exp_up]
    rw [roundB64_nonneg_eval _ (by norm_num) (by norm_num), h1]
    norm_num [pow2, round_half_even]
  have hfnav : float_net_asset_value c1_store "P" "T" = 1000 := by
    unfold float_net_asset_value
    rw [hpp]
    simp only [c1_store, List.map, signed_flow_f, Nat.cast_ofNat]
    simp only [r100]
    simp only [(by norm_num : (10 : ℚ) * 100 = 1000)]
    simp only [r1000, float_sum, List.foldl]
    rw [(by norm_num : (0 : ℚ) + 1000 = 1000), r1000]
  have ht20 : total_amount_sold 20 100 = 2000 := by
    norm_num [total_amount_sold]
  constructor
  · have h := (upd_clean_side_oversell_float c1_store "P" "T" 20 100
      (by decide)).2.1 (by rw [hfnav, ht20]; norm_num)
    rw [ht20, hfnav] at h
    exact h
  · exact (upd_clean_side_oversell_float c1_store "P" "T" 5 100
      (by decide)).2.2 (by rw [hfnav]; norm_num [total_amount_sold])

/-- C7 counterexample: on six buys of 1 @ 1.1 (all form-legal values), the
exact net value is 6.6, but the binary64 accumulation used by the oversell
check (`output_field=FloatField()`) is 3715469692580659/2^49 < 6.6, so a
proposed sell of exactly 6 @ 1.1 (notional 6.6) is rejected by the code's
comparison while the exact-rational comparison admits it: the boundary
comparison is not exact decimal arithmetic. -/
theorem oversell_float_comparison_differs :
    net_asset_value c7_store "P" "T" = 33/5 ∧
    total_amount_sold 6 (11/10) > float_net_asset_value c7_store "P" "T" ∧
    ¬ (total_amount_sold 6 (11/10) > net_asset_value c7_store "P" "T") := by
  refine ⟨nav_c7_eval, ?_, ?_⟩
  · rw [float_nav_c7_eval]
    norm_num [total_amount_sold]
  · rw [nav_c7_eval]
    norm_num [total_amount_sold]

/-- C7 (amended): the proposed notional `quantity * price` is computed
exactly (`int * Decimal` in Python), and the oversell comparison agrees with
the exact-rational comparison whenever the binary64 accumulation of the net
value happens to be exact — but not in general, as the counterexample's
boundary case shows. -/
theorem oversell_comparison_exact_when_float_exact
    (s : Store) (portfolio ticker : String) (quantity : ℕ) (price : ℚ)
    (hexact : float_net_asset_value s portfolio ticker =
      net_asset_value s portfolio ticker) :
    total_amount_sold quantity price = (quantity : ℚ) * price ∧
    ((total_amount_sold quantity price >
        float_net_asset_value s portfolio ticker) ↔
      (total_amount_sold quantity price >
        net_asset_value s portfolio ticker)) :=
  ⟨rfl, by rw [hexact]⟩

set_option maxHeartbeats 800000 in
/-- Witness for the amended C7 on `c7w_store` (one buy of 2 @ 3): the flow 6
and its sum are binary64-representable, the accumulation is exact, and the
boundary comparisons coincide. -/
theorem oversell_comparison_exact_when_float_exact_witness :
    float_net_asset_value c7w_store "P" "T"
      = net_asset_value c7w_store "P" "T" ∧
    ((total_amount_sold 4 2 > float_net_asset_value c7w_store "P" "T") ↔
      (total_amount_sold 4 2 > net_asset_value c7w_store "P" "T")) := by
  have hpp : pair_positions c7w_store "P" "T" = c7w_store.positions := by
    simp +decide [pair_positions, matches_pair, portfolio_name, c7w_store]
  have r3 : roundB64 (3 : ℚ) = 3 := by
    have h1 : exp2floor 3 = 1 := by norm_num [exp2floor, exp_up]
    rw [roundB64_nonneg_eval _ (by norm_num) (by norm_num), h1]
    norm_num [pow2, round_half_even]
  have r6 : roundB64 (6 : ℚ) = 6 := by
    have h1 : exp2floor 6 = 2 := by norm_num [exp2floor, exp_up]
    rw [roundB64_nonneg_eval _ (by norm_num) (by norm_num), h1]
    norm_num [pow2, round_half_even]
  have hexact : float_net_asset_value c7w_store "P" "T"
      = net_asset_value c7w_store "P" "T" := by
    unfold float_net_asset_value net_asset_value
    rw [hpp]
    simp only [c7w_store, List.map, signed_flow_f, signed_flow]
    simp only [r3]
    simp only [(by norm_num : ((2 : ℕ) : ℚ) * 3 = 6)]
    simp only [r6, float_sum, List.foldl]
    rw [(by norm_num : (0 : ℚ) + 6 = 6), r6]
    norm_num
  exact ⟨hexact,
    (oversell_comparison_exact_when_float_exact c7w_store "P" "T" 4 2 hexact).2⟩

end PortfolioBuilder
